import Mathlib

/-!
Shallow embedding of the weather monitoring system's aggregation and
alerting pipeline (src/config.py, src/utils/temperature_utils.py,
src/db/data_processing.py, src/db/db_manager.py, src/db/models.py).

Conventions of the embedding:
* Python floats are modelled as rationals (`ℚ`).
* Timestamps (`dt`) are modelled as epoch seconds (`ℤ`); `dateOf` models
  pandas `dt.date` (calendar-day bucket) and `hourOf` models `dt.hour`.
* A database table is modelled as a list of its rows; SQL `DELETE ... WHERE`
  is `List.filter`, `ORDER BY ... DESC LIMIT n` is a stable sort followed by
  `List.take`, and Postgres `ON CONFLICT DO UPDATE` upserts are modelled row
  by row in insertion order.
* pandas `groupby(keys)` (with its default `sort=True`) is modelled by
  sorting the deduplicated keys and filtering the rows of each group;
  pandas `sort_values` is a stable sort, modelled by a stable insertion
  sort.  String comparison is modelled by an executable lexicographic
  comparison `strLt`/`strLe`, proved equivalent to Mathlib's linear order
  on `String`.
-/

/-! ### config.py -/

def TEMP_UNIT_CELSIUS : String := "Celsius"

def TEMP_UNIT_FAHRENHEIT : String := "Fahrenheit"

def TEMP_UNIT_KELVIN : String := "Kelvin"

/-! ### utils/temperature_utils.py -/

/-- Models `kelvin_to_celsius` (src/utils/temperature_utils.py:5). -/
def kelvin_to_celsius (kelvin : ℚ) : ℚ := kelvin - 273.15

/-- Models `kelvin_to_fahrenheit` (src/utils/temperature_utils.py:14):
`kelvin_to_celsius(kelvin) * 9 / 5 + 32` with Python's left-associated
`*` and `/`. -/
def kelvin_to_fahrenheit (kelvin : ℚ) : ℚ := kelvin_to_celsius kelvin * 9 / 5 + 32

/-- Models `convert_temperature` (src/utils/temperature_utils.py:23). -/
def convert_temperature (kelvin : ℚ) (to_unit : String) : ℚ :=
  if to_unit = TEMP_UNIT_CELSIUS then kelvin_to_celsius kelvin
  else if to_unit = TEMP_UNIT_FAHRENHEIT then kelvin_to_fahrenheit kelvin
  else if to_unit = TEMP_UNIT_KELVIN then kelvin
  else kelvin

/-- Models `assign_weight` (src/utils/temperature_utils.py:60):
`2` for `9 <= hour < 17`, else `1`. -/
def assign_weight (hour : ℤ) : ℕ :=
  if 9 ≤ hour ∧ hour < 17 then 2 else 1

/-! ### Time model: pandas `dt.date` / `dt.hour` over epoch seconds. -/

/-- Calendar-day bucket of an epoch-second timestamp (models `dt.date`). -/
def dateOf (dt : ℤ) : ℤ := dt / 86400

/-- Hour of day of an epoch-second timestamp (models `dt.hour`). -/
def hourOf (dt : ℤ) : ℤ := dt % 86400 / 3600

/-! ### db/models.py -/

/-- A row of the `weather_data` table (src/db/models.py:16).
Primary key: `(city, dt)`. -/
structure WeatherData where
  city : String
  main : String
  temp : ℚ
  feels_like : ℚ
  dt : ℤ
deriving DecidableEq

/-- A row of the `daily_summary` table (src/db/models.py:27).
Primary key: `(city, date)`. -/
structure DailySummary where
  city : String
  date : ℤ
  avg_temp : ℚ
  max_temp : ℚ
  min_temp : ℚ
  dominant_condition : String
deriving DecidableEq

/-- A row of the `user_config` table (src/db/models.py:37). -/
structure UserConfig where
  city : String
  threshold : ℚ
  unit : String
  consecutive_updates : ℕ
deriving DecidableEq

/-! ### Executable string comparison (lexicographic, as Python compares
the `city`/`main` string columns). -/

def charLt (a b : Char) : Bool := decide (a.val < b.val)

def listCharLt : List Char → List Char → Bool
  | [], [] => false
  | [], _ :: _ => true
  | _ :: _, [] => false
  | a :: as, b :: bs =>
    if charLt a b then true else if charLt b a then false else listCharLt as bs

def strLt (s t : String) : Bool := listCharLt s.data t.data

def strLe (s t : String) : Bool := ! strLt t s

/-! ### Stable insertion sort (models pandas' stable `sort_values` and the
sorted group keys of `groupby`). -/

def insertSorted (le : α → α → Bool) (x : α) : List α → List α
  | [] => [x]
  | y :: ys => if le x y then x :: y :: ys else y :: insertSorted le x ys

def insertionSortBy (le : α → α → Bool) : List α → List α
  | [] => []
  | a :: t => insertSorted le a (insertionSortBy le t)

/-! ### db/data_processing.py -/

/-- Lexicographic order on the `(city, date)` group keys. -/
def keyLe (a b : String × ℤ) : Bool :=
  strLt a.1 b.1 || (decide (a.1 = b.1) && decide (a.2 ≤ b.2))

/-- The sorted, deduplicated `(city, date)` group keys of a batch
(the groups formed by `groupby(["city", "date"])`). -/
def groupKeys (rs : List WeatherData) : List (String × ℤ) :=
  insertionSortBy keyLe ((rs.map fun r => (r.city, dateOf r.dt)).dedup)

/-- The rows of one `(city, date)` group. -/
def groupRows (rs : List WeatherData) (k : String × ℤ) : List WeatherData :=
  rs.filter fun r => decide (r.city = k.1 ∧ dateOf r.dt = k.2)

/-- A row of the dataframe produced by `get_temperature_stats`
(src/db/data_processing.py:35). -/
structure TempStatRow where
  city : String
  date : ℤ
  avg_temp : ℚ
  max_temp : ℚ
  min_temp : ℚ
deriving DecidableEq

def listMax : List ℚ → ℚ
  | [] => 0
  | a :: t => t.foldl max a

def listMin : List ℚ → ℚ
  | [] => 0
  | a :: t => t.foldl min a

/-- The aggregated row of one `(city, date)` group:
`avg_temp=("temp", "mean"), max_temp=("temp", "max"), min_temp=("temp", "min")`. -/
def tempStatRow (rs : List WeatherData) (k : String × ℤ) : TempStatRow :=
  let temps := (groupRows rs k).map fun r => r.temp
  ⟨k.1, k.2, temps.sum / (temps.length : ℚ), listMax temps, listMin temps⟩

/-- Models `get_temperature_stats` (src/db/data_processing.py:35): one aggregated
row per `(city, date)` group, groups in sorted key order. -/
def get_temperature_stats (rs : List WeatherData) : List TempStatRow :=
  (groupKeys rs).map (tempStatRow rs)

/-- Summed daypart weight of condition label `m` over a group `g`
(the `groupby(["city", "date", "main"])["weight"].sum()` of
src/db/data_processing.py:67, restricted to one `(city, date)` group). -/
def sumWeight (g : List WeatherData) (m : String) : ℕ :=
  ((g.filter fun r => decide (r.main = m)).map fun r => assign_weight (hourOf r.dt)).sum

/-- The `(main, summed weight)` rows of one `(city, date)` group, in
ascending order of `main` (the key order `groupby` emits). -/
def condWeights (g : List WeatherData) : List (String × ℕ) :=
  (insertionSortBy strLe ((g.map fun r => r.main).dedup)).map fun m => (m, sumWeight g m)

/-- Comparison used by `sort_values(..., ascending=[True, True, False])`
within one `(city, date)` group: weight descending; the sort is stable. -/
def weightDescLe (a b : String × ℕ) : Bool := decide (b.2 ≤ a.2)

/-- A row of the dataframe produced by `get_dominant_conditions`. -/
structure DomRow where
  city : String
  date : ℤ
  dominant_condition : String
deriving DecidableEq

/-- Models `get_dominant_conditions` (src/db/data_processing.py:54): per
`(city, date)` group, stable-sort the `(main, summed weight)` rows by
weight descending and take the first row (`groupby(["city", "date"]).first()`). -/
def get_dominant_conditions (rs : List WeatherData) : List DomRow :=
  (groupKeys rs).filterMap fun k =>
    ((insertionSortBy weightDescLe (condWeights (groupRows rs k))).head?).map fun p =>
      ⟨k.1, k.2, p.1⟩

/-! ### db/db_manager.py -/

/-- The `pd.merge(temp_stats, dominant_stats, on=["city", "date"])` of
`calculate_daily_summary` (src/db/db_manager.py:142): inner join on the
group key. -/
def merge_summary (ts : List TempStatRow) (ds : List DomRow) : List DailySummary :=
  ts.filterMap fun t =>
    (ds.find? fun d => decide (d.city = t.city ∧ d.date = t.date)).map fun d =>
      ⟨t.city, t.date, t.avg_temp, t.max_temp, t.min_temp, d.dominant_condition⟩

/-- The `ON CONFLICT` update action: when `s` collides with the incoming
row `r` on `(city, date)`, overwrite the non-key columns of `s` with `r`'s
values; otherwise leave `s` alone. -/
def overwriteSummary (r s : DailySummary) : DailySummary :=
  if s.city = r.city ∧ s.date = r.date then
    { s with avg_temp := r.avg_temp, max_temp := r.max_temp,
             min_temp := r.min_temp, dominant_condition := r.dominant_condition }
  else s

/-- One row of the `INSERT ... ON CONFLICT ("city", "date") DO UPDATE`
upsert of `calculate_daily_summary` (src/db/db_manager.py:154): on
conflict only the non-key columns are overwritten. -/
def upsert_daily_summary (table : List DailySummary) (r : DailySummary) : List DailySummary :=
  if table.any fun s => decide (s.city = r.city ∧ s.date = r.date) then
    table.map (overwriteSummary r)
  else table ++ [r]

/-- Models `calculate_daily_summary` (src/db/db_manager.py:121): fetch today's
readings, aggregate them, and upsert one summary row per `(city, date)`. -/
def calculate_daily_summary (weather : List WeatherData) (summary : List DailySummary)
    (today : ℤ) : List DailySummary :=
  let results := weather.filter fun r => decide (dateOf r.dt = today)
  if results.isEmpty then summary
  else
    let rows := merge_summary (get_temperature_stats results) (get_dominant_conditions results)
    if rows.isEmpty then summary
    else rows.foldl upsert_daily_summary summary

/-- Models `delete_old_weather_data` (src/db/db_manager.py:82): delete every
reading with `dt < now - 2 days` (2 days = 172800 seconds). -/
def delete_old_weather_data (store : List WeatherData) (now : ℤ) : List WeatherData :=
  store.filter fun r => decide (¬ r.dt < now - 2 * 86400)

/-- Primary key of a `weather_data` row. -/
def weatherKey (r : WeatherData) : String × ℤ := (r.city, r.dt)

/-- Models `store_weather_data` (src/db/db_manager.py:250).  The function builds
an `ON CONFLICT ("city", "dt") DO UPDATE` statement `upsert_stmt` but then
executes the plain `INSERT` statement `stmt` (line 272).  So the batch is
appended only when no row of it collides with an existing primary key (nor
with another row of the batch); otherwise the unique-key violation is
caught, the transaction is rolled back, and the store is left unchanged. -/
def store_weather_data (store : List WeatherData) (batch : List WeatherData) :
    List WeatherData :=
  if (batch.map weatherKey).Nodup ∧ ∀ b ∈ batch, ∀ s ∈ store, weatherKey s ≠ weatherKey b then
    store ++ batch
  else store

/-- Models `update_user_config` (src/db/db_manager.py:286): delete every row of
`user_config`, then insert the single new row. -/
def update_user_config (cfgs : List UserConfig) (city : String) (threshold : ℚ)
    (unit : String) (consecutive_updates : ℕ) : List UserConfig :=
  let cleared : List UserConfig := []
  cleared ++ [⟨city, threshold, unit, consecutive_updates⟩]

/-- Models `read_user_config` (src/db/db_manager.py:318): the first row of
`user_config`, or `none` when the table is empty. -/
def read_user_config (cfgs : List UserConfig) : Option UserConfig := cfgs.head?

/-- Models `ORDER BY dt DESC` comparison on readings. -/
def dtDescLe (a b : WeatherData) : Bool := decide (b.dt ≤ a.dt)

/-- The `session.query(WeatherData).filter(city).order_by(desc(dt)).limit(n)`
of `check_alerts_in_app` (src/db/db_manager.py:187). -/
def recent_entries (weather : List WeatherData) (cfg : UserConfig) : List WeatherData :=
  (insertionSortBy dtDescLe (weather.filter fun r => decide (r.city = cfg.city))).take
    cfg.consecutive_updates

/-- The alert message of src/db/db_manager.py:209 (the two-decimal numeric
formatting of the temperature is abstracted as `toString`). -/
def alert_message (cfg : UserConfig) (current_temp : ℚ) : String :=
  let c := cfg.city
  let th := cfg.threshold
  let u := cfg.unit
  let n := cfg.consecutive_updates
  let t := current_temp
  s!"Alert for {c}: Temperature exceeded {th}°{u} for {n} consecutive updates. " ++
    s!"Current temperature: {t}°" ++ u.take 1

/-- Models `check_alerts_in_app` (src/db/db_manager.py:172).  When the alert fires
the code reads `recent_temps[0]`; on an empty list that raises `IndexError`,
which the surrounding handler catches, returning the (empty) alert list —
modelled by the `none` branch of `head?`. -/
def check_alerts_in_app (weather : List WeatherData) (cfgs : List UserConfig) : List String :=
  match read_user_config cfgs with
  | none => []
  | some cfg =>
    let recent := recent_entries weather cfg
    if recent.length < cfg.consecutive_updates then []
    else
      let recent_temps := recent.map fun e => convert_temperature e.temp cfg.unit
      if recent_temps.all fun t => decide (cfg.threshold < t) then
        match recent_temps.head? with
        | some current_temp => [alert_message cfg current_temp]
        | none => []
      else []

/-! ## Claim C4: unit conversion -/

/-- Claim C4: for every rational `k`, `convert(k, "Kelvin") = k`,
`convert(k, "Celsius") = k − 273.15`,
`convert(k, "Fahrenheit") = (k − 273.15) × 9/5 + 32`, and for every unit
string not among Kelvin/Celsius/Fahrenheit the input is returned unchanged;
all four cases are total in `k`. -/
theorem convert_temperature_spec (k : ℚ) (u : String)
    (hu : u ∉ [TEMP_UNIT_KELVIN, TEMP_UNIT_CELSIUS, TEMP_UNIT_FAHRENHEIT]) :
    convert_temperature k TEMP_UNIT_KELVIN = k ∧
    convert_temperature k TEMP_UNIT_CELSIUS = k - 273.15 ∧
    convert_temperature k TEMP_UNIT_FAHRENHEIT = (k - 273.15) * (9 / 5) + 32 ∧
    convert_temperature k u = k := by
  simp only [List.mem_cons, List.not_mem_nil, or_false, not_or] at hu
  obtain ⟨hk, hc, hf⟩ := hu
  refine ⟨?_, ?_, ?_, ?_⟩
  · simp [convert_temperature, TEMP_UNIT_KELVIN, TEMP_UNIT_CELSIUS, TEMP_UNIT_FAHRENHEIT]
  · simp [convert_temperature, kelvin_to_celsius]
  · rw [convert_temperature,
      if_neg (by decide : ¬ (TEMP_UNIT_FAHRENHEIT = TEMP_UNIT_CELSIUS)), if_pos rfl,
      kelvin_to_fahrenheit, kelvin_to_celsius]
    ring
  · simp [convert_temperature, hk, hc, hf]

/-- Witness for C4 at `k = 300` and the unrecognized unit `"Rankine"`. -/
theorem convert_temperature_spec_witness :
    convert_temperature 300 TEMP_UNIT_KELVIN = 300 ∧
    convert_temperature 300 TEMP_UNIT_CELSIUS = 300 - 273.15 ∧
    convert_temperature 300 TEMP_UNIT_FAHRENHEIT = (300 - 273.15) * (9 / 5) + 32 ∧
    convert_temperature 300 "Rankine" = 300 :=
  convert_temperature_spec 300 "Rankine" (by decide)

/-! ## Claim C5: daypart weights -/

/-- Claim C5: the daypart weight of a reading at hour `h` is `2` when
`9 ≤ h < 17` and `1` otherwise; in particular hour 8 gets weight 1, hour 9
gets weight 2 and hour 17 gets weight 1. -/
theorem assign_weight_spec (h : ℤ) :
    (9 ≤ h ∧ h < 17 → assign_weight h = 2) ∧
    (¬ (9 ≤ h ∧ h < 17) → assign_weight h = 1) ∧
    assign_weight 8 = 1 ∧ assign_weight 9 = 2 ∧ assign_weight 17 = 1 := by
  refine ⟨fun hd => ?_, fun hn => ?_, by decide, by decide, by decide⟩
  · simp [assign_weight, hd]
  · simp [assign_weight, hn]

/-- Witness for C5 at the daytime hour 12 and the nighttime hour 20. -/
theorem assign_weight_spec_witness :
    assign_weight 12 = 2 ∧ assign_weight 20 = 1 :=
  ⟨(assign_weight_spec 12).1 (by decide), (assign_weight_spec 20).2.1 (by decide)⟩

/-! ## Claim C9: singleton alert configuration -/

/-- Claim C9: every call to `update_user_config` replaces the whole
`user_config` table by exactly the one new row — a full delete of all
existing rows followed by one insert — so at most one (indeed exactly one)
configuration row exists afterwards, whatever the prior state was. -/
theorem update_user_config_spec (cfgs : List UserConfig) (city : String) (threshold : ℚ)
    (u : String) (n : ℕ) :
    update_user_config cfgs city threshold u n = [⟨city, threshold, u, n⟩] ∧
    (update_user_config cfgs city threshold u n).length = 1 := by
  exact ⟨rfl, rfl⟩

/-! ## Claim C10: alert check with no configuration -/

/-- Claim C10: with no `user_config` row the alert check returns the empty
list, whatever the weather table holds (so it never reads weather data). -/
theorem check_alerts_no_config (weather : List WeatherData) :
    check_alerts_in_app weather [] = [] := rfl

/-! ## Claim C3: `store_weather_data` does not upsert (code bug) -/

/-- Claim C3, code bug evidence: storing a batch whose single reading has the
same `(city, dt)` identity as an existing reading but a new condition and
temperatures leaves the store unchanged — the executed plain `INSERT`
conflicts and is rolled back, so nothing is overwritten — while a
non-conflicting batch is appended. -/
theorem store_weather_data_conflict_rolls_back :
    store_weather_data [⟨"Delhi", "Clear", 300, 301, 1000⟩]
        [⟨"Delhi", "Haze", 310, 311, 1000⟩] =
      [⟨"Delhi", "Clear", 300, 301, 1000⟩] ∧
    store_weather_data ([] : List WeatherData) [⟨"Delhi", "Haze", 310, 311, 1000⟩] =
      [⟨"Delhi", "Haze", 310, 311, 1000⟩] := by
  constructor
  · rw [store_weather_data, if_neg]
    intro hcon
    exact (hcon.2 ⟨"Delhi", "Haze", 310, 311, 1000⟩ (by simp)
      ⟨"Delhi", "Clear", 300, 301, 1000⟩ (by simp)) rfl
  · rw [store_weather_data, if_pos]
    · rfl
    · refine ⟨by simp, ?_⟩
      intro b _ s hs
      simp at hs

/-! ## Claim C8: retention sweeper -/

/-- Claim C8: the sweeper keeps exactly the readings whose `dt` is not
strictly older than `now − 2 days`, touching nothing else (the survivors
form a sublist of the store), and an immediate second run deletes
nothing. -/
theorem delete_old_weather_data_spec (store : List WeatherData) (now : ℤ) :
    (∀ r, r ∈ delete_old_weather_data store now ↔
      r ∈ store ∧ ¬ r.dt < now - 2 * 86400) ∧
    List.Sublist (delete_old_weather_data store now) store ∧
    delete_old_weather_data (delete_old_weather_data store now) now =
      delete_old_weather_data store now := by
  refine ⟨fun r => ?_, List.filter_sublist _, ?_⟩
  · simp [delete_old_weather_data, List.mem_filter]
  · simp [delete_old_weather_data, List.filter_filter]

/-! ## Generic facts about the stable insertion sort -/

theorem perm_insertSorted (le : α → α → Bool) (x : α) :
    ∀ l : List α, List.Perm (insertSorted le x l) (x :: l) := by
  intro l
  induction l with
  | nil => exact List.Perm.refl _
  | cons y ys ih =>
    rw [insertSorted]
    by_cases h : le x y
    · simp [h]
    · simp only [h, if_false]
      exact (ih.cons y).trans (List.Perm.swap x y ys)

theorem perm_insertionSortBy (le : α → α → Bool) :
    ∀ l : List α, List.Perm (insertionSortBy le l) l := by
  intro l
  induction l with
  | nil => exact List.Perm.refl _
  | cons a t ih =>
    rw [insertionSortBy]
    exact (perm_insertSorted le a _).trans (ih.cons a)

theorem mem_insertionSortBy (le : α → α → Bool) (l : List α) (x : α) :
    x ∈ insertionSortBy le l ↔ x ∈ l :=
  (perm_insertionSortBy le l).mem_iff

theorem length_insertionSortBy (le : α → α → Bool) (l : List α) :
    (insertionSortBy le l).length = l.length :=
  (perm_insertionSortBy le l).length_eq

theorem nodup_insertionSortBy (le : α → α → Bool) (l : List α) (h : l.Nodup) :
    (insertionSortBy le l).Nodup :=
  ((perm_insertionSortBy le l).nodup_iff).mpr h

theorem pairwise_insertSorted (le : α → α → Bool)
    (htot : ∀ a b, le a b = true ∨ le b a = true)
    (htrans : ∀ a b c, le a b = true → le b c = true → le a c = true)
    (x : α) : ∀ l : List α, l.Pairwise (fun a b => le a b = true) →
      (insertSorted le x l).Pairwise (fun a b => le a b = true) := by
  intro l
  induction l with
  | nil => intro _; simp [insertSorted]
  | cons y ys ih =>
    intro hl
    rw [List.pairwise_cons] at hl
    rw [insertSorted]
    by_cases h : le x y
    · simp only [h, if_true]
      refine List.pairwise_cons.mpr ⟨?_, List.pairwise_cons.mpr hl⟩
      intro z hz
      rcases List.mem_cons.mp hz with hz | hz
      · exact hz ▸ h
      · exact htrans x y z h (hl.1 z hz)
    · simp only [h, if_false]
      refine List.pairwise_cons.mpr ⟨?_, ih hl.2⟩
      intro z hz
      rcases List.mem_cons.mp ((perm_insertSorted le x ys).mem_iff.mp hz) with hz | hz
      · rcases htot x y with hxy | hyx
        · exact absurd hxy h
        · exact hz ▸ hyx
      · exact hl.1 z hz

theorem pairwise_insertionSortBy (le : α → α → Bool)
    (htot : ∀ a b, le a b = true ∨ le b a = true)
    (htrans : ∀ a b c, le a b = true → le b c = true → le a c = true) :
    ∀ l : List α, (insertionSortBy le l).Pairwise (fun a b => le a b = true) := by
  intro l
  induction l with
  | nil => simp [insertionSortBy]
  | cons a t ih =>
    rw [insertionSortBy]
    exact pairwise_insertSorted le htot htrans a _ ih

/-! ## The executable string order agrees with Mathlib's order on `String` -/

theorem charLt_iff (a b : Char) : charLt a b = true ↔ a < b := by
  simp [charLt, Char.lt_def]

theorem listCharLt_iff : ∀ a b : List Char, listCharLt a b = true ↔ List.Lex (· < ·) a b := by
  intro a
  induction a with
  | nil =>
    intro b
    cases b with
    | nil =>
      simp only [listCharLt, Bool.false_eq_true, false_iff]
      intro h
      cases h
    | cons y ys => simp only [listCharLt, true_iff]; exact List.Lex.nil
  | cons x xs ih =>
    intro b
    cases b with
    | nil =>
      simp only [listCharLt, Bool.false_eq_true, false_iff]
      intro h
      cases h
    | cons y ys =>
      rw [listCharLt]
      by_cases h1 : charLt x y
      · rw [if_pos h1]
        simp only [true_iff]
        exact List.Lex.rel ((charLt_iff x y).mp h1)
      · by_cases h2 : charLt y x
        · rw [if_neg h1, if_pos h2]
          simp only [Bool.false_eq_true, false_iff]
          intro hlex
          cases hlex with
          | cons h => exact absurd ((charLt_iff x x).mp h2) (lt_irrefl x)
          | rel h => exact h1 ((charLt_iff x y).mpr h)
        · have hxy : x = y := le_antisymm
            (not_lt.mp fun hc => h2 ((charLt_iff y x).mpr hc))
            (not_lt.mp fun hc => h1 ((charLt_iff x y).mpr hc))
          subst hxy
          rw [if_neg h1, if_neg h2, ih ys]
          constructor
          · exact List.Lex.cons
          · intro hlex
            cases hlex with
            | cons h => exact h
            | rel h => exact absurd h (lt_irrefl x)

theorem strLt_iff (s t : String) : strLt s t = true ↔ s < t := by
  rw [String.lt_iff_toList_lt, strLt, listCharLt_iff]
  exact Iff.rfl

theorem strLe_iff (s t : String) : strLe s t = true ↔ s ≤ t := by
  rw [strLe, Bool.not_eq_true', ← Bool.not_eq_true, strLt_iff]
  exact not_lt

theorem strLe_total (a b : String) : strLe a b = true ∨ strLe b a = true := by
  rw [strLe_iff, strLe_iff]
  exact le_total a b

theorem strLe_trans (a b c : String) (h1 : strLe a b = true) (h2 : strLe b c = true) :
    strLe a c = true := by
  rw [strLe_iff] at h1 h2 ⊢
  exact le_trans h1 h2

/-! ## Claim C6: temperature statistics bounds -/

theorem le_foldl_max : ∀ (l : List ℚ) (a x : ℚ), (x = a ∨ x ∈ l) → x ≤ l.foldl max a := by
  intro l
  induction l with
  | nil =>
    intro a x hx
    rcases hx with hx | hx
    · exact hx.le
    · cases hx
  | cons b t ih =>
    intro a x hx
    rw [List.foldl_cons]
    rcases hx with hx | hx
    · exact le_trans (hx ▸ le_max_left a b) (ih (max a b) (max a b) (Or.inl rfl))
    · rcases List.mem_cons.mp hx with hx | hx
      · exact le_trans (hx ▸ le_max_right a b) (ih (max a b) (max a b) (Or.inl rfl))
      · exact ih (max a b) x (Or.inr hx)

theorem foldl_min_le : ∀ (l : List ℚ) (a x : ℚ), (x = a ∨ x ∈ l) → l.foldl min a ≤ x := by
  intro l
  induction l with
  | nil =>
    intro a x hx
    rcases hx with hx | hx
    · exact hx.ge
    · cases hx
  | cons b t ih =>
    intro a x hx
    rw [List.foldl_cons]
    rcases hx with hx | hx
    · exact le_trans (ih (min a b) (min a b) (Or.inl rfl)) (hx ▸ min_le_left a b)
    · rcases List.mem_cons.mp hx with hx | hx
      · exact le_trans (ih (min a b) (min a b) (Or.inl rfl)) (hx ▸ min_le_right a b)
      · exact ih (min a b) x (Or.inr hx)

theorem le_listMax (l : List ℚ) (x : ℚ) (hx : x ∈ l) : x ≤ listMax l := by
  cases l with
  | nil => cases hx
  | cons a t =>
    rw [listMax]
    rcases List.mem_cons.mp hx with hx | hx
    · exact le_foldl_max t a x (Or.inl hx)
    · exact le_foldl_max t a x (Or.inr hx)

theorem listMin_le (l : List ℚ) (x : ℚ) (hx : x ∈ l) : listMin l ≤ x := by
  cases l with
  | nil => cases hx
  | cons a t =>
    rw [listMin]
    rcases List.mem_cons.mp hx with hx | hx
    · exact foldl_min_le t a x (Or.inl hx)
    · exact foldl_min_le t a x (Or.inr hx)

theorem avg_between (l : List ℚ) (hl : l ≠ []) :
    listMin l ≤ l.sum / (l.length : ℚ) ∧ l.sum / (l.length : ℚ) ≤ listMax l := by
  have hpos : (0 : ℚ) < (l.length : ℚ) := by
    have := List.length_pos.mpr hl
    exact_mod_cast this
  constructor
  · rw [le_div_iff hpos]
    have h := List.card_nsmul_le_sum l (listMin l) (fun x hx => listMin_le l x hx)
    rw [nsmul_eq_mul] at h
    linarith
  · rw [div_le_iff hpos]
    have h := List.sum_le_card_nsmul l (listMax l) (fun x hx => le_listMax l x hx)
    rw [nsmul_eq_mul] at h
    linarith

theorem groupRows_ne_nil (rs : List WeatherData) (k : String × ℤ) (hk : k ∈ groupKeys rs) :
    groupRows rs k ≠ [] := by
  rw [groupKeys, mem_insertionSortBy, List.mem_dedup] at hk
  obtain ⟨r, hr, hrk⟩ := List.mem_map.mp hk
  have hmem : r ∈ groupRows rs k := by
    rw [groupRows, List.mem_filter]
    refine ⟨hr, ?_⟩
    rw [decide_eq_true_iff]
    have h1 : r.city = k.1 := congrArg Prod.fst hrk
    have h2 : dateOf r.dt = k.2 := congrArg Prod.snd hrk
    exact ⟨h1, h2⟩
  exact List.ne_nil_of_mem hmem

/-- Claim C6: every summary row produced by `get_temperature_stats` satisfies
`min_temp ≤ avg_temp ≤ max_temp`, where `avg_temp` is the mean, `max_temp`
the maximum and `min_temp` the minimum of the group's temperatures. -/
theorem get_temperature_stats_spec (rs : List WeatherData) (row : TempStatRow)
    (hrow : row ∈ get_temperature_stats rs) :
    row.min_temp ≤ row.avg_temp ∧ row.avg_temp ≤ row.max_temp := by
  rw [get_temperature_stats] at hrow
  obtain ⟨k, hk, hrk⟩ := List.mem_map.mp hrow
  subst hrk
  have hne : (groupRows rs k).map (fun r => r.temp) ≠ [] := by
    intro h
    exact groupRows_ne_nil rs k hk (List.map_eq_nil.mp h)
  simpa [tempStatRow] using avg_between _ hne

/-- Fixture for the C6 witness: the spec's stats example, temperatures
`{30, 32}` in one (Delhi, day 0) group. -/
def wStats : List WeatherData :=
  [⟨"Delhi", "Clear", 30, 31, 32400⟩, ⟨"Delhi", "Clouds", 32, 33, 54000⟩]

/-- Witness for C6 at the (Delhi, day 0) group of `wStats`. -/
theorem get_temperature_stats_spec_witness :
    (tempStatRow wStats ("Delhi", 0)).min_temp ≤ (tempStatRow wStats ("Delhi", 0)).avg_temp ∧
    (tempStatRow wStats ("Delhi", 0)).avg_temp ≤ (tempStatRow wStats ("Delhi", 0)).max_temp :=
  get_temperature_stats_spec wStats (tempStatRow wStats ("Delhi", 0))
    (List.mem_map_of_mem (tempStatRow wStats) (by decide))

/-! ## Claim C2: alert evaluation -/

/-- Claim C2: with a live configuration (`consecutive_updates ≥ 1`, per the
AlertConfig invariant), the alert check returns exactly one message iff at
least `consecutive_updates` readings exist for the configured city and all
of the most recent `consecutive_updates` readings' temperatures, converted
into the configured unit, strictly exceed the threshold; with fewer
readings the result is the empty list, not an error. -/
theorem check_alerts_spec (weather : List WeatherData) (cfgs : List UserConfig)
    (cfg : UserConfig) (hc : read_user_config cfgs = some cfg)
    (hn : 1 ≤ cfg.consecutive_updates) :
    ((check_alerts_in_app weather cfgs).length = 1 ↔
      (cfg.consecutive_updates ≤
          (weather.filter fun r => decide (r.city = cfg.city)).length ∧
        ∀ e ∈ recent_entries weather cfg,
          cfg.threshold < convert_temperature e.temp cfg.unit)) ∧
    ((weather.filter fun r => decide (r.city = cfg.city)).length <
        cfg.consecutive_updates →
      check_alerts_in_app weather cfgs = []) := by
  have hlenR : (recent_entries weather cfg).length =
      min cfg.consecutive_updates
        ((weather.filter fun r => decide (r.city = cfg.city)).length) := by
    rw [recent_entries, List.length_take, length_insertionSortBy]
  by_cases hlt : (weather.filter fun r => decide (r.city = cfg.city)).length <
      cfg.consecutive_updates
  · have hR : (recent_entries weather cfg).length < cfg.consecutive_updates := by
      rw [hlenR]
      exact lt_of_le_of_lt (min_le_right _ _) hlt
    have hres : check_alerts_in_app weather cfgs = [] := by
      simp only [check_alerts_in_app, hc]
      rw [if_pos hR]
    refine ⟨?_, fun _ => hres⟩
    rw [hres]
    refine iff_of_false (by simp) ?_
    rintro ⟨h1, -⟩
    exact absurd h1 (not_le.mpr hlt)
  · push_neg at hlt
    have hR : (recent_entries weather cfg).length = cfg.consecutive_updates := by
      rw [hlenR]
      exact min_eq_left hlt
    have hRnot : ¬ (recent_entries weather cfg).length < cfg.consecutive_updates := by
      rw [hR]
      exact lt_irrefl _
    refine ⟨?_, fun h => absurd h (not_lt.mpr hlt)⟩
    by_cases hall : ((recent_entries weather cfg).map fun e =>
        convert_temperature e.temp cfg.unit).all fun t => decide (cfg.threshold < t)
    · have hne : (recent_entries weather cfg).map
          (fun e => convert_temperature e.temp cfg.unit) ≠ [] := by
        intro hcon
        have : (recent_entries weather cfg).length = 0 := by
          have := congrArg List.length hcon
          simpa using this
        omega
      obtain ⟨t0, ts, hts⟩ := List.exists_cons_of_ne_nil hne
      have hres : check_alerts_in_app weather cfgs = [alert_message cfg t0] := by
        simp only [check_alerts_in_app, hc]
        rw [if_neg hRnot, if_pos hall, hts]
        rfl
      rw [hres]
      refine iff_of_true rfl ⟨hlt, ?_⟩
      intro e he
      have := List.all_eq_true.mp hall (convert_temperature e.temp cfg.unit)
        (List.mem_map_of_mem _ he)
      exact of_decide_eq_true this
    · have hres : check_alerts_in_app weather cfgs = [] := by
        simp only [check_alerts_in_app, hc]
        rw [if_neg hRnot, if_neg hall]
      rw [hres]
      refine iff_of_false (by simp) ?_
      rintro ⟨-, h2⟩
      refine hall (List.all_eq_true.mpr ?_)
      intro t ht
      obtain ⟨e, he, het⟩ := List.mem_map.mp ht
      exact het ▸ decide_eq_true (h2 e he)

/-- Fixture for the C2 witness: the default alert configuration. -/
def cfgFix : UserConfig := ⟨"Delhi", 35, "Celsius", 2⟩

/-- Witness for C2: the configuration `cfgFix` over an empty store. -/
theorem check_alerts_spec_witness :
    ((check_alerts_in_app [] [cfgFix]).length = 1 ↔
      (cfgFix.consecutive_updates ≤
          (List.filter (fun r => decide (r.city = cfgFix.city)) ([] : List WeatherData)).length ∧
        ∀ e ∈ recent_entries [] cfgFix,
          cfgFix.threshold < convert_temperature e.temp cfgFix.unit)) ∧
    ((List.filter (fun r => decide (r.city = cfgFix.city)) ([] : List WeatherData)).length <
        cfgFix.consecutive_updates →
      check_alerts_in_app [] [cfgFix] = []) :=
  check_alerts_spec [] [cfgFix] cfgFix rfl (by decide)

/-! ## Claim C1: weighted dominant condition -/

/-- Head of the stable weight-descending sort of rows whose labels are in
ascending order: it is a row of maximal weight, and among the rows tied at
that weight its label is the alphabetically least. -/
theorem head_weightDescSort_spec :
    ∀ l : List (String × ℕ), l.Pairwise (fun a b => a.1 ≤ b.1) →
      ∀ p, (insertionSortBy weightDescLe l).head? = some p →
        p ∈ l ∧ (∀ x ∈ l, x.2 ≤ p.2) ∧ (∀ x ∈ l, x.2 = p.2 → p.1 ≤ x.1) := by
  intro l
  induction l with
  | nil =>
    intro _ p hp
    simp [insertionSortBy] at hp
  | cons a t ih =>
    intro hs p hp
    rw [List.pairwise_cons] at hs
    rw [insertionSortBy] at hp
    cases hS : insertionSortBy weightDescLe t with
    | nil =>
      have ht : t = [] := by
        have hlen := congrArg List.length hS
        rw [length_insertionSortBy] at hlen
        exact List.length_eq_zero.mp hlen
      subst ht
      rw [hS, insertSorted, List.head?_cons] at hp
      have hpa : a = p := Option.some.inj hp
      subst hpa
      refine ⟨List.mem_cons_self _ _, ?_, ?_⟩
      · intro x hx
        rcases List.mem_cons.mp hx with hx | hx
        · exact hx ▸ le_refl _
        · cases hx
      · intro x hx _
        rcases List.mem_cons.mp hx with hx | hx
        · exact hx ▸ le_refl _
        · cases hx
    | cons h s' =>
      rw [hS, insertSorted] at hp
      have hih := ih hs.2 h (by rw [hS]; rfl)
      by_cases hcmp : weightDescLe a h
      · rw [if_pos hcmp, List.head?_cons] at hp
        have hpa : a = p := Option.some.inj hp
        subst hpa
        have hah : h.2 ≤ a.2 := of_decide_eq_true hcmp
        refine ⟨List.mem_cons_self _ _, ?_, ?_⟩
        · intro x hx
          rcases List.mem_cons.mp hx with hx | hx
          · exact hx ▸ le_refl _
          · exact le_trans (hih.2.1 x hx) hah
        · intro x hx _
          rcases List.mem_cons.mp hx with hx | hx
          · exact hx ▸ le_refl _
          · exact hs.1 x hx
      · rw [if_neg hcmp, List.head?_cons] at hp
        have hph : h = p := Option.some.inj hp
        subst hph
        have hah : a.2 < h.2 :=
          not_le.mp fun hc => hcmp (decide_eq_true hc)
        refine ⟨List.mem_cons_of_mem a hih.1, ?_, ?_⟩
        · intro x hx
          rcases List.mem_cons.mp hx with hx | hx
          · exact hx ▸ le_of_lt hah
          · exact hih.2.1 x hx
        · intro x hx hxe
          rcases List.mem_cons.mp hx with hx | hx
          · exact absurd (hx ▸ hxe) (ne_of_lt hah)
          · exact hih.2.2 x hx hxe

theorem condWeights_pairwise (g : List WeatherData) :
    (condWeights g).Pairwise fun a b => a.1 ≤ b.1 := by
  rw [condWeights]
  refine List.Pairwise.map _ (fun a b hab => ?_)
    (pairwise_insertionSortBy strLe strLe_total strLe_trans _)
  exact (strLe_iff a b).mp hab

theorem mem_condWeights_of_mem (g : List WeatherData) (r : WeatherData) (hr : r ∈ g) :
    (r.main, sumWeight g r.main) ∈ condWeights g := by
  rw [condWeights]
  refine List.mem_map.mpr ⟨r.main, ?_, rfl⟩
  rw [mem_insertionSortBy, List.mem_dedup]
  exact List.mem_map_of_mem _ hr

theorem condWeights_mem_spec (g : List WeatherData) (p : String × ℕ)
    (hp : p ∈ condWeights g) : p.2 = sumWeight g p.1 ∧ ∃ r ∈ g, r.main = p.1 := by
  rw [condWeights] at hp
  obtain ⟨m, hm, hmp⟩ := List.mem_map.mp hp
  rw [mem_insertionSortBy, List.mem_dedup] at hm
  obtain ⟨r, hr, hrm⟩ := List.mem_map.mp hm
  cases hmp
  exact ⟨rfl, ⟨r, hr, hrm⟩⟩

/-- Claim C1: every row emitted by `get_dominant_conditions` carries, for its
`(city, date)` group, a condition label that occurs in the group, whose
summed daypart weight is maximal among the group's labels, and which is the
alphabetically first label among those tied at the maximal weight. -/
theorem get_dominant_conditions_spec (rs : List WeatherData) (d : DomRow)
    (hd : d ∈ get_dominant_conditions rs) :
    (∃ r ∈ groupRows rs (d.city, d.date), r.main = d.dominant_condition) ∧
    (∀ r ∈ groupRows rs (d.city, d.date),
      sumWeight (groupRows rs (d.city, d.date)) r.main ≤
        sumWeight (groupRows rs (d.city, d.date)) d.dominant_condition) ∧
    (∀ r ∈ groupRows rs (d.city, d.date),
      sumWeight (groupRows rs (d.city, d.date)) r.main =
          sumWeight (groupRows rs (d.city, d.date)) d.dominant_condition →
        d.dominant_condition ≤ r.main) := by
  rw [get_dominant_conditions] at hd
  obtain ⟨k, hk, hkd⟩ := List.mem_filterMap.mp hd
  rw [Option.map_eq_some'] at hkd
  obtain ⟨p, hp, hpd⟩ := hkd
  subst hpd
  dsimp only
  have hhead := head_weightDescSort_spec (condWeights (groupRows rs k))
    (condWeights_pairwise _) p hp
  obtain ⟨hpmem, hmax, htie⟩ := hhead
  obtain ⟨hpw, r0, hr0, hr0m⟩ := condWeights_mem_spec _ p hpmem
  have hgk : groupRows rs (k.1, k.2) = groupRows rs k := rfl
  rw [hgk]
  refine ⟨⟨r0, hr0, hr0m⟩, ?_, ?_⟩
  · intro r hr
    have := hmax (r.main, sumWeight (groupRows rs k) r.main)
      (mem_condWeights_of_mem _ r hr)
    rw [hpw] at this
    exact this
  · intro r hr hre
    refine htie (r.main, sumWeight (groupRows rs k) r.main)
      (mem_condWeights_of_mem _ r hr) ?_
    rw [hre, hpw]

/-- Fixture for the C1 witness: the spec's dominant-condition example —
Delhi has Clear@9h and Clouds@15h (both weight 2, an exact tie), Mumbai has
Rain@12h and Rain@20h. -/
def wDom : List WeatherData :=
  [⟨"Delhi", "Clear", 30, 31, 32400⟩,
   ⟨"Delhi", "Clouds", 32, 33, 54000⟩,
   ⟨"Mumbai", "Rain", 28, 29, 43200⟩,
   ⟨"Mumbai", "Rain", 29, 30, 72000⟩]

/-- Witness for C1: on `wDom` the (Delhi, day 0) tie between Clear and
Clouds (both summed weight 2) resolves to the alphabetically first label
"Clear". -/
theorem get_dominant_conditions_spec_witness :
    (∃ r ∈ groupRows wDom ("Delhi", 0), r.main = "Clear") ∧
    (∀ r ∈ groupRows wDom ("Delhi", 0),
      sumWeight (groupRows wDom ("Delhi", 0)) r.main ≤
        sumWeight (groupRows wDom ("Delhi", 0)) "Clear") ∧
    (∀ r ∈ groupRows wDom ("Delhi", 0),
      sumWeight (groupRows wDom ("Delhi", 0)) r.main =
          sumWeight (groupRows wDom ("Delhi", 0)) "Clear" →
        ("Clear" : String) ≤ r.main) :=
  get_dominant_conditions_spec wDom ⟨"Delhi", 0, "Clear"⟩ (by decide)

/-! ## Claim C7: idempotence of the Daily Aggregator -/

theorem overwriteSummary_city (r s : DailySummary) : (overwriteSummary r s).city = s.city := by
  rw [overwriteSummary]
  split <;> rfl

theorem overwriteSummary_date (r s : DailySummary) : (overwriteSummary r s).date = s.date := by
  rw [overwriteSummary]
  split <;> rfl

/-- The non-key values of `r` are in force at every row of `t` that shares
`r`'s `(city, date)` key. -/
def valsOk (t : List DailySummary) (r : DailySummary) : Prop :=
  ∀ s ∈ t, s.city = r.city ∧ s.date = r.date →
    s.avg_temp = r.avg_temp ∧ s.max_temp = r.max_temp ∧
      s.min_temp = r.min_temp ∧ s.dominant_condition = r.dominant_condition

/-- Some row of `t` carries `r`'s `(city, date)` key. -/
def hasKey (t : List DailySummary) (r : DailySummary) : Prop :=
  (t.any fun s => decide (s.city = r.city ∧ s.date = r.date)) = true

theorem overwriteSummary_eq_self (r s : DailySummary)
    (h : s.city = r.city ∧ s.date = r.date →
      s.avg_temp = r.avg_temp ∧ s.max_temp = r.max_temp ∧
        s.min_temp = r.min_temp ∧ s.dominant_condition = r.dominant_condition) :
    overwriteSummary r s = s := by
  rcases s with ⟨c, dt, av, mx, mn, dc⟩
  rw [overwriteSummary]
  split
  · rename_i hcd
    obtain ⟨h1, h2, h3, h4⟩ := h hcd
    simp only at h1 h2 h3 h4
    rw [h1, h2, h3, h4]
  · rfl

theorem any_map_overwrite (r q : DailySummary) (t : List DailySummary) :
    ((t.map (overwriteSummary r)).any fun s => decide (s.city = q.city ∧ s.date = q.date)) =
      (t.any fun s => decide (s.city = q.city ∧ s.date = q.date)) := by
  rw [List.any_map]
  congr 1
  funext s
  simp only [Function.comp_apply, overwriteSummary_city, overwriteSummary_date]

theorem hasKey_upsert_self (t : List DailySummary) (r : DailySummary) :
    hasKey (upsert_daily_summary t r) r := by
  rw [hasKey, upsert_daily_summary]
  split
  · rename_i hc
    rw [any_map_overwrite]
    exact hc
  · rw [List.any_append]
    simp

theorem hasKey_upsert_mono (t : List DailySummary) (r q : DailySummary)
    (h : hasKey t q) : hasKey (upsert_daily_summary t r) q := by
  rw [hasKey, upsert_daily_summary]
  split
  · rw [any_map_overwrite]
    exact h
  · rw [List.any_append, h]
    rfl

theorem valsOk_upsert_self (t : List DailySummary) (r : DailySummary) :
    valsOk (upsert_daily_summary t r) r := by
  rw [valsOk, upsert_daily_summary]
  split
  · rename_i hc
    intro s' hs' hkey
    obtain ⟨s, hs, hss⟩ := List.mem_map.mp hs'
    subst hss
    have hcond : s.city = r.city ∧ s.date = r.date := by
      rwa [overwriteSummary_city, overwriteSummary_date] at hkey
    rw [overwriteSummary, if_pos hcond]
    exact ⟨rfl, rfl, rfl, rfl⟩
  · rename_i hc
    intro s' hs' hkey
    rcases List.mem_append.mp hs' with hs' | hs'
    · exfalso
      have hfalse := Bool.eq_false_iff.mpr hc
      exact (List.any_eq_false.mp hfalse s' hs') (decide_eq_true hkey)
    · rcases List.mem_singleton.mp hs'
      exact ⟨rfl, rfl, rfl, rfl⟩

theorem valsOk_upsert_other (t : List DailySummary) (r q : DailySummary)
    (hne : ¬ (r.city = q.city ∧ r.date = q.date)) (h : valsOk t q) :
    valsOk (upsert_daily_summary t r) q := by
  rw [valsOk, upsert_daily_summary]
  split
  · intro s' hs' hkey
    obtain ⟨s, hs, hss⟩ := List.mem_map.mp hs'
    subst hss
    have hkey' : s.city = q.city ∧ s.date = q.date := by
      rwa [overwriteSummary_city, overwriteSummary_date] at hkey
    have hnotr : ¬ (s.city = r.city ∧ s.date = r.date) := by
      rintro ⟨h1, h2⟩
      exact hne ⟨h1 ▸ hkey'.1, h2 ▸ hkey'.2⟩
    rw [overwriteSummary, if_neg hnotr]
    exact h s hs hkey'
  · intro s' hs' hkey
    rcases List.mem_append.mp hs' with hs' | hs'
    · exact h s' hs' hkey
    · rcases List.mem_singleton.mp hs'
      exact absurd hkey hne

theorem upsert_eq_self (t : List DailySummary) (r : DailySummary)
    (hk : hasKey t r) (hv : valsOk t r) : upsert_daily_summary t r = t := by
  rw [hasKey] at hk
  rw [upsert_daily_summary, if_pos hk]
  have : ∀ s ∈ t, overwriteSummary r s = id s := by
    intro s hs
    exact overwriteSummary_eq_self r s (hv s hs)
  rw [List.map_congr_left this, List.map_id]

theorem hasKey_foldl (rows : List DailySummary) :
    ∀ (t : List DailySummary) (r : DailySummary), hasKey t r →
      hasKey (rows.foldl upsert_daily_summary t) r := by
  induction rows with
  | nil => intro t r h; exact h
  | cons q rows ih =>
    intro t r h
    rw [List.foldl_cons]
    exact ih _ r (hasKey_upsert_mono t q r h)

theorem valsOk_foldl (rows : List DailySummary) :
    ∀ (t : List DailySummary) (r : DailySummary),
      (∀ q ∈ rows, ¬ (q.city = r.city ∧ q.date = r.date)) →
      valsOk t r → valsOk (rows.foldl upsert_daily_summary t) r := by
  induction rows with
  | nil => intro t r _ h; exact h
  | cons q rows ih =>
    intro t r hdis h
    rw [List.foldl_cons]
    exact ih _ r (fun q' hq' => hdis q' (List.mem_cons_of_mem q hq'))
      (valsOk_upsert_other t q r (hdis q (List.mem_cons_self q rows)) h)

theorem foldl_upsert_idem :
    ∀ rows : List DailySummary,
      ((rows.map fun s => (s.city, s.date)).Nodup) →
      ∀ t : List DailySummary,
        rows.foldl upsert_daily_summary (rows.foldl upsert_daily_summary t) =
          rows.foldl upsert_daily_summary t := by
  intro rows
  induction rows with
  | nil => intro _ t; rfl
  | cons r rows ih =>
    intro hnd t
    rw [List.map_cons, List.nodup_cons] at hnd
    have hdis : ∀ q ∈ rows, ¬ (q.city = r.city ∧ q.date = r.date) := by
      intro q hq hcon
      refine hnd.1 ?_
      have : (q.city, q.date) = (r.city, r.date) := by
        rw [hcon.1, hcon.2]
      exact this ▸ List.mem_map_of_mem _ hq
    rw [List.foldl_cons, List.foldl_cons]
    have hT2k : hasKey (rows.foldl upsert_daily_summary (upsert_daily_summary t r)) r :=
      hasKey_foldl rows _ r (hasKey_upsert_self t r)
    have hT2v : valsOk (rows.foldl upsert_daily_summary (upsert_daily_summary t r)) r :=
      valsOk_foldl rows _ r hdis (valsOk_upsert_self t r)
    rw [upsert_eq_self _ r hT2k hT2v]
    exact ih hnd.2 _

theorem filterMap_guard_sublist (f : α → Option β) :
    ∀ l : List α, List.Sublist (l.filterMap fun a => (f a).map fun _ => a) l := by
  intro l
  induction l with
  | nil => simp
  | cons a t ih =>
    rw [List.filterMap_cons]
    cases hfa : f a with
    | none =>
      simp only [Option.map_none']
      exact ih.cons a
    | some b =>
      simp only [Option.map_some']
      exact ih.cons₂ a

theorem nodup_groupKeys (rs : List WeatherData) : (groupKeys rs).Nodup :=
  nodup_insertionSortBy keyLe _ (List.nodup_dedup _)

theorem merge_summary_keys_sublist (rs : List WeatherData) :
    List.Sublist
      ((merge_summary (get_temperature_stats rs) (get_dominant_conditions rs)).map
        fun s => (s.city, s.date))
      (groupKeys rs) := by
  rw [merge_summary, get_temperature_stats, List.filterMap_map, List.map_filterMap]
  have hfun : ∀ k : String × ℤ,
      (Option.map (fun s : DailySummary => (s.city, s.date))
        (((get_dominant_conditions rs).find? fun d =>
            decide (d.city = (tempStatRow rs k).city ∧ d.date = (tempStatRow rs k).date)).map
          fun d => ⟨(tempStatRow rs k).city, (tempStatRow rs k).date,
            (tempStatRow rs k).avg_temp, (tempStatRow rs k).max_temp,
            (tempStatRow rs k).min_temp, d.dominant_condition⟩)) =
      Option.map (fun _ => k)
        ((get_dominant_conditions rs).find? fun d =>
          decide (d.city = (tempStatRow rs k).city ∧ d.date = (tempStatRow rs k).date)) := by
    intro k
    rw [Option.map_map]
    rfl
  have : (fun k : String × ℤ =>
      Option.map (fun s : DailySummary => (s.city, s.date))
        ((Function.comp (fun t : TempStatRow =>
            ((get_dominant_conditions rs).find? fun d =>
              decide (d.city = t.city ∧ d.date = t.date)).map
            fun d => ⟨t.city, t.date, t.avg_temp, t.max_temp, t.min_temp,
              d.dominant_condition⟩) (tempStatRow rs)) k)) =
      fun k : String × ℤ =>
        Option.map (fun _ => k)
          ((get_dominant_conditions rs).find? fun d =>
            decide (d.city = (tempStatRow rs k).city ∧ d.date = (tempStatRow rs k).date)) := by
    funext k
    exact hfun k
  rw [this]
  exact filterMap_guard_sublist _ (groupKeys rs)

theorem merge_summary_keys_nodup (rs : List WeatherData) :
    ((merge_summary (get_temperature_stats rs) (get_dominant_conditions rs)).map
      fun s => (s.city, s.date)).Nodup :=
  (merge_summary_keys_sublist rs).nodup (nodup_groupKeys rs)

/-- Claim C7: running the Daily Aggregator a second time over the identical
batch of readings changes nothing: the upserted summary table after the
second run equals the table after the first run — the upsert neither
accumulates values nor duplicates rows. -/
theorem calculate_daily_summary_idem (weather : List WeatherData)
    (summary : List DailySummary) (today : ℤ) :
    calculate_daily_summary weather (calculate_daily_summary weather summary today) today =
      calculate_daily_summary weather summary today := by
  simp only [calculate_daily_summary]
  by_cases hres : (weather.filter fun r => decide (dateOf r.dt = today)).isEmpty
  · simp only [if_pos hres]
  · simp only [if_neg hres]
    by_cases hrows : (merge_summary
        (get_temperature_stats (weather.filter fun r => decide (dateOf r.dt = today)))
        (get_dominant_conditions (weather.filter fun r => decide (dateOf r.dt = today)))).isEmpty
    · simp only [if_pos hrows]
    · simp only [if_neg hrows]
      exact foldl_upsert_idem _ (merge_summary_keys_nodup _) summary
